import Mathlib

set_option autoImplicit false

/-!
Verification of the agentic job-search backend.

The definitions below are a shallow embedding of the backend sources:
`app/backend/services/session_service.py`,
`app/backend/services/analysis_service.py` and `app/backend/pipeline.py`.
Timestamps (Python `time.time()` floats) are modelled as rationals, the
in-memory `_sessions` dictionary as an association list accessed through a
`lookup` function, and network probes / the language-model runtime as
explicit inputs to the functions that consume them.
-/

namespace JobSearchPipeline

/-! ## Session store (`services/session_service.py`) -/

/-- One session record, mirroring the `Session` dataclass: id, original
resume text, last produced result, creation and update timestamps and a
metadata dictionary (modelled as an association list). -/
structure Session where
  session_id : String
  resume_text : String
  last_result : String
  created_at : ℚ
  updated_at : ℚ
  metadata : List (String × String)
deriving DecidableEq, Repr

/-- The `_sessions` dictionary of `SessionService`, as an association list
with at most one live binding per key (reads go through `lookupSession`,
writes through `setSession`, so duplicate keys are unobservable). -/
abbrev Store := List (String × Session)

/-- Dictionary read: first binding of the key, if any. -/
def lookupSession : Store → String → Option Session
  | [], _ => none
  | p :: rest, sid => if p.1 = sid then some p.2 else lookupSession rest sid

/-- Dictionary deletion (`del self._sessions[session_id]`). -/
def eraseSession (store : Store) (sid : String) : Store :=
  store.filter (fun p => ¬ p.1 = sid)

/-- Dictionary write (`self._sessions[session_id] = session`). -/
def setSession (store : Store) (sid : String) (s : Session) : Store :=
  (sid, s) :: eraseSession store sid

/-- `SessionService._cleanup_expired`: drop every session whose age from
creation strictly exceeds the TTL. -/
def cleanupExpired (ttl now : ℚ) (store : Store) : Store :=
  store.filter (fun p => ¬ now - p.2.created_at > ttl)

/-- `SessionService.create`: build a fresh session for `sid` with empty
last result and metadata and both timestamps set to the current time,
store it (overwriting any existing binding), then run the opportunistic
expiry sweep. -/
def createSession (ttl now : ℚ) (store : Store) (sid resume : String) :
    Session × Store :=
  let s : Session :=
    { session_id := sid, resume_text := resume, last_result := "",
      created_at := now, updated_at := now, metadata := [] }
  (s, cleanupExpired ttl now (setSession store sid s))

/-- `SessionService.get`: absent key returns `none`; a present key whose
age from creation exceeds the TTL is deleted and reported `none`;
otherwise the stored session is returned and the store is untouched. -/
def getSession (ttl now : ℚ) (store : Store) (sid : String) :
    Option Session × Store :=
  match lookupSession store sid with
  | none => (none, store)
  | some s =>
      if now - s.created_at > ttl then (none, eraseSession store sid)
      else (some s, store)

/-- `dict.update` on the metadata dictionary: later bindings override. -/
def metadataUpdate (old new : List (String × String)) :
    List (String × String) :=
  new.foldl (fun acc p => (p.1, p.2) :: acc.filter (fun q => ¬ q.1 = p.1)) old

/-- `SessionService.update`: look the session up through `get` (so an
expired binding is evicted on the way); on a miss return `none`, on a hit
overwrite the last result, refresh `updated_at` and merge any non-empty
metadata argument (`if metadata:` is false for both `None` and `{}`). -/
def updateSession (ttl now : ℚ) (store : Store) (sid result : String)
    (metadata : Option (List (String × String))) : Option Session × Store :=
  match getSession ttl now store sid with
  | (none, store1) => (none, store1)
  | (some s, store1) =>
      let md := match metadata with
        | none => s.metadata
        | some m => if m = [] then s.metadata else metadataUpdate s.metadata m
      let s' : Session :=
        { s with last_result := result, updated_at := now, metadata := md }
      (some s', setSession store1 sid s')

/-! ## Consensus aggregator (`pipeline.py`, `CONSENSUS_INSTRUCTION`)

Modelled from the spec: the weighted-ensemble formula and the confidence
rule are carried by the consensus unit's instruction text in `pipeline.py`
(`final_level = round((M*0.5 + C*0.25 + O*0.25))`; all three agree → High
0.9, two agree → Medium 0.75, all differ → Low 0.6); the arithmetic is
executed by the external language model, not by repository code, so the
formula is embedded here as the pure function the spec describes, with the
documented round-half-up tie-break and the documented [1,10] output range
as a clamp. -/

/-- Round to the nearest integer, ties upward (the documented tie-break of
the Consensus Aggregator). -/
def roundHalfUp (q : ℚ) : ℤ := ⌊q + 1 / 2⌋

/-- Clamp a level into the documented output range [1, 10]. -/
def clampLevel (n : ℤ) : ℤ := max 1 (min 10 n)

/-- The weighted ensemble sum: most-likely 50 %, conservative 25 %,
optimistic 25 %. -/
def weightedLevel (M C O : ℤ) : ℚ :=
  (M : ℚ) * (1 / 2) + (C : ℚ) * (1 / 4) + (O : ℚ) * (1 / 4)

/-- `final_level = round(M*0.5 + C*0.25 + O*0.25)`, clamped to [1, 10]. -/
def finalLevel (M C O : ℤ) : ℤ := clampLevel (roundHalfUp (weightedLevel M C O))

inductive ConfidenceLabel
  | high
  | medium
  | low
deriving DecidableEq, Repr

/-- Confidence rule: all three agree → High, exactly two agree → Medium,
all differ → Low. -/
def confidenceLabel (M C O : ℤ) : ConfidenceLabel :=
  if M = C ∧ C = O then .high
  else if M = C ∨ C = O ∨ M = O then .medium
  else .low

/-- Numeric confidence attached to each label. -/
def confidenceValue : ConfidenceLabel → ℚ
  | .high => 9 / 10
  | .medium => 3 / 4
  | .low => 3 / 5

/-- Size of the largest cluster of equal estimates ("k/3 agents"). -/
def agreementCount (M C O : ℤ) : ℕ :=
  if M = C ∧ C = O then 3
  else if M = C ∨ C = O ∨ M = O then 2
  else 1

/-! ## Link validation (`pipeline.py`, `validate_url_async`,
`validate_urls_async`, `check_job_urls`)

The network side of a probe (`aiohttp` HEAD request) is an external
effect; it is modelled as a `ProbeOutcome` input: either a response with
an HTTP status code or a raised exception with its message (timeouts and
connection errors both surface as exceptions in the source). -/

inductive ProbeOutcome
  | ok (status : ℕ)
  | err (msg : String)
deriving DecidableEq, Repr

/-- Per-URL record built by `validate_url_async`. -/
structure UrlResult where
  url : String
  status : Option ℕ
  valid : Bool
  error : Option String
deriving DecidableEq, Repr

/-- `validate_url_async`: a response is valid exactly when its status is
200 (`"valid": response.status == 200`); an exception yields an invalid
record carrying the exception text. -/
def validate_url_async (url : String) : ProbeOutcome → UrlResult
  | .ok s => { url := url, status := some s, valid := s == 200, error := none }
  | .err m => { url := url, status := none, valid := false, error := some m }

/-- Aggregate record built by `validate_urls_async`. -/
structure UrlValidationSummary where
  total_urls : ℕ
  valid_count : ℕ
  invalid_count : ℕ
  all_valid : Bool
  invalid_urls : List String
  results : List UrlResult
deriving DecidableEq, Repr

/-- `validate_urls_async`: validate every URL against its probe outcome
and aggregate counts, the invalid subset and the overall flag. -/
def validate_urls_async (probes : List (String × ProbeOutcome)) :
    UrlValidationSummary :=
  let results := probes.map (fun p => validate_url_async p.1 p.2)
  let valid_count := (results.filter (fun r => r.valid)).length
  { total_urls := probes.length
    valid_count := valid_count
    invalid_count := probes.length - valid_count
    all_valid := valid_count == probes.length
    invalid_urls := (results.filter (fun r => !r.valid)).map (fun r => r.url)
    results := results }

/-- The three probes of the spec's test scenario: statuses 200 and 404
plus a timeout. -/
def sampleProbes : List (String × ProbeOutcome) :=
  [("https://ok.example/job", ProbeOutcome.ok 200),
   ("https://gone.example/job", ProbeOutcome.ok 404),
   ("https://slow.example/job", ProbeOutcome.err "TimeoutError")]

/-- Stop characters of the URL token pattern
`https?://[^\s\)\]\"\x27<>\x60]+` of `check_job_urls` (the ASCII portion
of the `\s` class; the URLs this scanner faces are ASCII). -/
def isStopChar (c : Char) : Bool :=
  c == ' ' || c == '\t' || c == '\n' || c == '\r'
    || c == Char.ofNat 11 || c == Char.ofNat 12
    || c == ')' || c == ']' || c == '"' || c == Char.ofNat 39
    || c == '<' || c == '>' || c == Char.ofNat 96

/-- Length of the token the URL pattern matches at the head of `cs`
(0 when no match starts here): the literal scheme prefix followed by at
least one non-stop character, extended greedily. -/
def urlMatchLen (cs : List Char) : ℕ :=
  if "https://".data.isPrefixOf cs then
    if ((cs.drop 8).takeWhile (fun c => !isStopChar c)).length = 0 then 0
    else 8 + ((cs.drop 8).takeWhile (fun c => !isStopChar c)).length
  else if "http://".data.isPrefixOf cs then
    if ((cs.drop 7).takeWhile (fun c => !isStopChar c)).length = 0 then 0
    else 7 + ((cs.drop 7).takeWhile (fun c => !isStopChar c)).length
  else 0

/-- The left-to-right non-overlapping scan of `re.findall`: at each
position either take the match and resume after it, or advance one
character. The first argument is fuel; it is always called with the
remaining length, which the scan never outruns (each step consumes at
least one character and one unit of fuel), as `findUrlTokensAux_fuel`
proves. -/
def findUrlTokensAux : ℕ → List Char → List (List Char)
  | 0, _ => []
  | _ + 1, [] => []
  | fuel + 1, c :: rest =>
      if urlMatchLen (c :: rest) = 0 then findUrlTokensAux fuel rest
      else
        (c :: rest).take (urlMatchLen (c :: rest))
          :: findUrlTokensAux fuel ((c :: rest).drop (urlMatchLen (c :: rest)))

/-- All URL-shaped tokens of a text, in order. -/
def findUrls (s : String) : List String :=
  (findUrlTokensAux s.data.length s.data).map (fun cs => String.mk cs)

/-- Remove trailing backticks (`url.rstrip` with the backtick). -/
def stripTrailingBackticks (u : String) : String :=
  String.mk ((u.data.reverse.dropWhile (fun c => c == Char.ofNat 96)).reverse)

/-- The comprehension over the found URLs: drop search-directive markers,
strip trailing backticks. -/
def sanitizeUrls (urls : List String) : List String :=
  (urls.filter (fun u => !("[SEARCH:".isPrefixOf u))).map stripTrailingBackticks

/-- Result dictionary of `check_job_urls`; keys absent from a branch's
dictionary are `none`. -/
structure CheckResult where
  all_valid : Bool
  valid_urls : Option (List String)
  invalid_urls : Option (List String)
  feedback : String
  should_exit : Bool
deriving DecidableEq, Repr

/-- `check_job_urls`: scan the unit's output for URLs; report "No URLs
found." (not valid, no exit) when none are found, otherwise validate them
all against the probe and report either success or the invalid subset
with retry feedback. -/
def check_job_urls (job_output : String) (probe : String → ProbeOutcome) :
    CheckResult :=
  let urls := sanitizeUrls (findUrls job_output)
  if urls = [] then
    { all_valid := false, valid_urls := none, invalid_urls := none,
      feedback := "No URLs found.", should_exit := false }
  else
    let vr := validate_urls_async (urls.map (fun u => (u, probe u)))
    if vr.all_valid then
      { all_valid := true, valid_urls := some urls, invalid_urls := none,
        feedback := "SUCCESS", should_exit := true }
    else
      { all_valid := false, valid_urls := none,
        invalid_urls := some vr.invalid_urls,
        feedback := "URL VALIDATION FAILED: "
          ++ toString vr.invalid_urls.length
          ++ " URLs broken. Retry with company careers pages.",
        should_exit := false }

/-! ## Workflow graph (`pipeline.py`, `setup_pipeline`) -/

/-- Rate limit configuration: `STAGGER_DELAY = 2.0` ("seconds between
batches"). -/
def STAGGER_DELAY : ℚ := 2

/-- The composition language of the orchestration runtime as used by
`setup_pipeline`: leaf units, `SequentialAgent` (runs each sub-agent as
soon as the previous one finishes), `ParallelAgent`, and an explicit wait
step (`asyncio.sleep`) — the construct a stagger delay between batches
would be expressed with. -/
inductive AgentTree
  | unit (name : String)
  | sequential (name : String) (sub_agents : List AgentTree)
  | parallel (name : String) (sub_agents : List AgentTree)
  | wait (seconds : ℚ)

def exact_match_scout : AgentTree := .unit "exact_match_scout"

def level_up_scout : AgentTree := .unit "level_up_scout"

def stretch_scout : AgentTree := .unit "stretch_scout"

def trajectory_scout : AgentTree := .unit "trajectory_scout"

/-- First batch of scouts (`parallel_batch_1`). -/
def parallel_batch_1 : AgentTree :=
  .parallel "job_scouts_batch_1" [exact_match_scout, level_up_scout]

/-- Second batch of scouts (`parallel_batch_2`). -/
def parallel_batch_2 : AgentTree :=
  .parallel "job_scouts_batch_2" [stretch_scout, trajectory_scout]

/-- `batched_job_scouts = SequentialAgent(name="batched_job_scouts",
sub_agents=[parallel_batch_1, parallel_batch_2])`: the source puts
nothing between the two batches. -/
def batched_job_scouts : AgentTree :=
  .sequential "batched_job_scouts" [parallel_batch_1, parallel_batch_2]

def subAgentsOf : AgentTree → List AgentTree
  | .unit _ => []
  | .wait _ => []
  | .sequential _ s => s
  | .parallel _ s => s

def isWaitStep : AgentTree → Bool
  | .wait _ => true
  | _ => false

def waitSeconds : AgentTree → ℚ
  | .wait s => s
  | _ => 0

/-- Seconds of explicit wait steps before the first non-wait element. -/
def leadingWaitSum : List AgentTree → ℚ
  | [] => 0
  | t :: ts => if isWaitStep t then waitSeconds t + leadingWaitSum ts else 0

/-- The elements after the first non-wait element. -/
def afterFirstSubAgent : List AgentTree → List AgentTree
  | [] => []
  | t :: ts => if isWaitStep t then afterFirstSubAgent ts else ts

/-- The minimum delay a sequential stage imposes between the completion
of its first non-wait sub-agent and the start of its second: the wait
seconds standing between them. -/
def interBatchDelay (t : AgentTree) : ℚ :=
  leadingWaitSum (afterFirstSubAgent (subAgentsOf t))

/-! ## Analysis service (`services/analysis_service.py`) -/

/-- Outcome of the pipeline collaborator (`analyze_resume`): the produced
report, or the text of the exception it raised. -/
abbrev PipelineOutcome := Except String String

/-- `AnalysisService.analyze`: run the pipeline; on success store the
session with its result and return the session id and report; on any
pipeline exception raise `AnalysisError` wrapping the failing error text,
with the session store untouched (the store writes sit after the pipeline
call inside the `try`). The elapsed-time measurement is elided. -/
def analyze (ttl now : ℚ) (store : Store) (session_id resume_text : String)
    (pipelineResult : PipelineOutcome) :
    Except String (String × String) × Store :=
  match pipelineResult with
  | .error e => (.error ("Pipeline execution failed: " ++ e), store)
  | .ok result =>
      (.ok (session_id, result),
        (updateSession ttl now
          (createSession ttl now store session_id resume_text).2
          session_id result none).2)

/-! ## Duration extractor (`pipeline.py`, `calculate_yoe`)

The two interval grammars (month-name and numeric dates) produce a list
of candidate intervals — month names resolve through `months_map` into
1..12, numeric months are bounds-checked to 1..12, two-digit years are
expanded; the arithmetic downstream of the regex matching is embedded
over that parsed interval list. -/

/-- One parsed employment interval. -/
structure DateInterval where
  start_year : ℕ
  start_month : ℕ
  end_year : ℕ
  end_month : ℕ
deriving DecidableEq, Repr

/-- `duration_months = (end_year_int - start_year) * 12 + (end_month -
start_month)`: the month difference, excluding one endpoint month. -/
def durationMonths (i : DateInterval) : ℤ :=
  ((i.end_year : ℤ) - i.start_year) * 12
    + ((i.end_month : ℤ) - i.start_month)

/-- The pairs the loop `for y in range(start_year, end_year + 1): for m in
range(1, 13)` adds to `all_months_worked` for one interval: every month of
every year in the inclusive year range, minus months before the start in
the first year and after the end in the last year. -/
def monthsCovered (i : DateInterval) : Finset (ℕ × ℕ) :=
  (Finset.Icc i.start_year i.end_year ×ˢ Finset.Icc 1 12).filter
    (fun p => ¬ ((p.1 = i.start_year ∧ p.2 < i.start_month)
      ∨ (p.1 = i.end_year ∧ i.end_month < p.2)))

/-- The intervals kept by the `if duration_months <= 0: continue` guard. -/
def keptIntervals (l : List DateInterval) : List DateInterval :=
  l.filter (fun i => 0 < durationMonths i)

/-- Union of the covered months over a list of intervals. -/
def coveredUnion (l : List DateInterval) : Finset (ℕ × ℕ) :=
  l.foldr (fun i acc => monthsCovered i ∪ acc) ∅

/-- The `all_months_worked` set after both pattern loops. -/
def allMonthsWorked (l : List DateInterval) : Finset (ℕ × ℕ) :=
  coveredUnion (keptIntervals l)

/-- `total_months_deduped = len(all_months_worked)`. -/
def totalMonthsDeduped (l : List DateInterval) : ℕ :=
  (allMonthsWorked l).card

/-- Sum of the kept intervals' `duration_months`. -/
def sumDurationMonths (l : List DateInterval) : ℤ :=
  ((keptIntervals l).map durationMonths).sum

/-- Round a rational to one decimal place, ties to even (Python
`round(x, 1)` on the value; Python rounds the underlying binary float,
which can deviate from the exact tie rule by one ulp — no claim here
depends on a tie). -/
def roundTo1 (q : ℚ) : ℚ :=
  ((if Int.fract (q * 10) = 1 / 2 then
      (if 2 ∣ ⌈q * 10⌉ then ⌈q * 10⌉ else ⌊q * 10⌋)
    else round (q * 10) : ℤ) : ℚ) / 10

/-- `total_yoe = round(total_months_deduped / 12, 1)`. -/
def totalYoe (l : List DateInterval) : ℚ :=
  roundTo1 ((totalMonthsDeduped l : ℚ) / 12)

/-- Parser guarantee carried by both grammars: months lie in 1..12. -/
def monthsInRange (i : DateInterval) : Prop :=
  1 ≤ i.start_month ∧ i.start_month ≤ 12
    ∧ 1 ≤ i.end_month ∧ i.end_month ≤ 12

instance (i : DateInterval) : Decidable (monthsInRange i) := by
  unfold monthsInRange
  infer_instance

/-- Interval parsed from "Jan 2020 - Feb 2020". -/
def roleJanFeb : DateInterval :=
  { start_year := 2020, start_month := 1, end_year := 2020, end_month := 2 }

/-- Interval parsed from "Feb 2020 - Mar 2020"; it shares February 2020
with `roleJanFeb`. -/
def roleFebMar : DateInterval :=
  { start_year := 2020, start_month := 2, end_year := 2020, end_month := 3 }

/-! ## Progress stream (`pipeline.py` `analyze_resume`,
`services/analysis_service.py` `analyze_stream`)

One pipeline run is linearized as: the sequence of events the runner
stream delivers, the sequence of (agent, message) pairs the progress
callback pushes onto the queue (the queue is constructed unbounded —
`asyncio.Queue()` — so `put_nowait` never raises and nothing is dropped;
the polling loop plus the post-completion drain forward it in FIFO
order), and the pipeline task's outcome. The wall-clock fields are
elided. -/

/-- One event of the runner stream as consumed by the
`async for event in _runner.run_async(...)` loop: the emitting unit's
name (`event.author`, absent for synthetic events) and the text of its
content parts (empty string for a part with no text). -/
structure RunnerEvent where
  author : Option String
  parts : List String
deriving DecidableEq, Repr

/-- First part with non-empty (truthy) text. -/
def firstPartText (parts : List String) : Option String :=
  parts.find? (fun t => !(t == ""))

/-- Strip leading and trailing whitespace. -/
def stripEnds (cs : List Char) : List Char :=
  ((cs.dropWhile (fun c => c.isWhitespace)).reverse.dropWhile
    (fun c => c.isWhitespace)).reverse

/-- The preview text of a progress callback:
`text[:150].replace("\n", " ").strip()` with an ellipsis appended when
truncated (the emoji display label is elided). -/
def previewOf (t : String) : String :=
  String.mk (stripEnds ((t.data.take 150).map
      (fun c => if c = '\n' then ' ' else c)))
    ++ (if 150 < t.data.length then "..." else "")

/-- The progress callbacks `analyze_resume` issues from unit outputs
while consuming the runner stream: for each unit name not yet in
`seen_agents`, its first event carrying non-empty text produces exactly
one callback and marks the unit seen. -/
def unitCallbacks : List String → List RunnerEvent → List (String × String)
  | _, [] => []
  | seen, ev :: evs =>
      match ev.author with
      | none => unitCallbacks seen evs
      | some a =>
          if a ∈ seen then unitCallbacks seen evs
          else
            match firstPartText ev.parts with
            | none => unitCallbacks seen evs
            | some t => (a, previewOf t) :: unitCallbacks (a :: seen) evs

inductive StreamEventType
  | progress
  | result
  | error
deriving DecidableEq, Repr

/-- A streamed wire record; fields a branch leaves unset are `none`
(`processing_time_ms` is elided with the clock). -/
structure StreamEvent where
  event_type : StreamEventType
  agent_name : Option String
  message : Option String
  result : Option String
  session_id : Option String
deriving DecidableEq, Repr

/-- A progress record forwarded from one queued callback pair. -/
def progressEvent (q : String × String) : StreamEvent :=
  { event_type := .progress, agent_name := some q.1, message := some q.2,
    result := none, session_id := none }

/-- The terminal record: `result` carrying the report on pipeline
success, `error` wrapping the failure text otherwise. -/
def terminalEvent (session_id : String) : Except String String → StreamEvent
  | .ok r =>
      { event_type := .result, agent_name := none, message := none,
        result := some r, session_id := some session_id }
  | .error e =>
      { event_type := .error, agent_name := none,
        message := some ("Pipeline execution failed: " ++ e),
        result := none, session_id := none }

/-- The initial mode banner of `analyze_stream`. -/
def startEvent (session_id banner : String) : StreamEvent :=
  { event_type := .progress, agent_name := some "system",
    message := some banner, result := none,
    session_id := some session_id }

/-- `AnalysisService.analyze_stream` over one run: the banner, then every
queued progress pair in FIFO order (polling loop plus post-completion
drain of the unbounded queue), then the single terminal record once the
pipeline task has finished. `queued` is the whole sequence enqueued
during the run (callbacks stop when the task ends). -/
def analyze_stream (session_id banner : String)
    (queued : List (String × String)) (outcome : Except String String) :
    List StreamEvent :=
  startEvent session_id banner
    :: (queued.map progressEvent ++ [terminalEvent session_id outcome])

/-- Whether a record is terminal (result or error). -/
def isTerminalEvent (e : StreamEvent) : Bool :=
  e.event_type == StreamEventType.result
    || e.event_type == StreamEventType.error

/-- A concrete runner-event trace: the resume parser emits twice (second
output must be suppressed), the level classifier once. -/
def sampleRunnerEvents : List RunnerEvent :=
  [{ author := some "resume_parser", parts := ["", "parsed profile"] },
   { author := some "resume_parser", parts := ["more output"] },
   { author := some "level_classifier", parts := ["level 6"] }]

/-- The unit names of the full-analysis orchestrator (11 units). -/
def pipelineUnitNames : List String :=
  ["resume_parser", "level_classifier", "conservative_evaluator",
   "optimistic_evaluator", "consensus", "exact_match_scout",
   "level_up_scout", "stretch_scout", "trajectory_scout",
   "url_validator", "formatter"]

theorem lookup_eraseSession (store : Store) (sid : String) :
    lookupSession (eraseSession store sid) sid = none := by
  induction store with
  | nil => rfl
  | cons p rest ih =>
      by_cases h : p.1 = sid
      · simpa [eraseSession, h] using ih
      · simpa [eraseSession, lookupSession, h] using ih

theorem lookup_setSession (store : Store) (sid : String) (s : Session) :
    lookupSession (setSession store sid s) sid = some s := by
  simp [setSession, lookupSession]

/-- Fixed example sessions used to instantiate the store theorems. -/
def sampleSession : Session :=
  { session_id := "s1", resume_text := "resume text", last_result := "r0",
    created_at := 0, updated_at := 0, metadata := [] }

def staleSession : Session :=
  { session_id := "s2", resume_text := "old resume", last_result := "r1",
    created_at := 0, updated_at := 0, metadata := [] }

/-- C5: `SessionService.get` returns a session exactly when an entry is
present whose age from creation is within the TTL; an entry present but
older than the TTL is deleted from the store and reported absent; a hit
leaves the store (and the session) unchanged. -/
theorem getSession_spec (ttl now : ℚ) (store : Store) (sid : String) :
    (∀ s, (getSession ttl now store sid).1 = some s ↔
        lookupSession store sid = some s ∧ now - s.created_at ≤ ttl)
    ∧ (∀ s, lookupSession store sid = some s → ttl < now - s.created_at →
        getSession ttl now store sid = (none, eraseSession store sid))
    ∧ (∀ s, (getSession ttl now store sid).1 = some s →
        (getSession ttl now store sid).2 = store) := by
  refine ⟨?_, ?_, ?_⟩
  · intro s
    unfold getSession
    cases h : lookupSession store sid with
    | none => simp [h]
    | some t =>
        by_cases hexp : now - t.created_at > ttl
        · simp only [hexp, if_pos]
          constructor
          · intro hcontra; cases hcontra
          · rintro ⟨hst, hle⟩
            cases hst
            exact absurd hexp (not_lt.mpr hle)
        · simp only [hexp, if_neg]
          constructor
          · intro hsome
            cases hsome
            exact ⟨rfl, le_of_not_lt hexp⟩
          · rintro ⟨hst, _⟩
            cases hst
            rfl
  · intro s hlk hexp
    unfold getSession
    rw [hlk]
    simp [show now - s.created_at > ttl from hexp]
  · intro s hsome
    unfold getSession at hsome ⊢
    cases h : lookupSession store sid with
    | none => rfl
    | some t =>
        by_cases hexp : now - t.created_at > ttl
        · rw [h] at hsome; simp [hexp] at hsome
        · simp [h, hexp]

/-- Witness for C5 on a concrete store: a fresh entry is returned
unchanged, an over-aged entry is evicted and reported absent. -/
theorem getSession_spec_witness :
    ((getSession 3600 100 [("s1", sampleSession)] "s1").1 = some sampleSession
      ∧ (getSession 3600 100 [("s1", sampleSession)] "s1").2
          = [("s1", sampleSession)])
    ∧ getSession 3600 4000 [("s2", staleSession)] "s2" = (none, []) := by
  refine ⟨⟨?_, ?_⟩, ?_⟩
  · exact ((getSession_spec 3600 100 [("s1", sampleSession)] "s1").1
      sampleSession).mpr ⟨by decide, by norm_num [sampleSession]⟩
  · exact (getSession_spec 3600 100 [("s1", sampleSession)] "s1").2.2
      sampleSession (((getSession_spec 3600 100 [("s1", sampleSession)]
        "s1").1 sampleSession).mpr ⟨by decide, by norm_num [sampleSession]⟩)
  · have h := (getSession_spec 3600 4000 [("s2", staleSession)] "s2").2.1
      staleSession (by decide) (by norm_num [staleSession])
    simpa [eraseSession] using h

/-- C6: `SessionService.update` on an id that is absent or expired returns
`none` and leaves no entry for that id in the store (it never creates a
session); on a currently valid id it overwrites `last_result`, refreshes
`updated_at`, and preserves `session_id`, `resume_text` and `created_at`. -/
theorem updateSession_spec (ttl now : ℚ) (store : Store) (sid result : String)
    (metadata : Option (List (String × String))) :
    ((lookupSession store sid = none
        ∨ ∃ s, lookupSession store sid = some s ∧ ttl < now - s.created_at) →
      (updateSession ttl now store sid result metadata).1 = none
      ∧ lookupSession (updateSession ttl now store sid result metadata).2 sid
          = none)
    ∧ (∀ s, lookupSession store sid = some s → now - s.created_at ≤ ttl →
        ∃ s', updateSession ttl now store sid result metadata
            = (some s', setSession store sid s')
          ∧ s'.last_result = result ∧ s'.updated_at = now
          ∧ s'.session_id = s.session_id ∧ s'.resume_text = s.resume_text
          ∧ s'.created_at = s.created_at) := by
  constructor
  · intro h
    have hget : getSession ttl now store sid
        = (none, (getSession ttl now store sid).2) := by
      rcases h with hnone | ⟨s, hs, hexp⟩
      · unfold getSession; rw [hnone]
      · rw [(getSession_spec ttl now store sid).2.1 s hs hexp]
    have hstore2 : lookupSession (getSession ttl now store sid).2 sid = none := by
      rcases h with hnone | ⟨s, hs, hexp⟩
      · unfold getSession; rw [hnone]; exact hnone
      · rw [(getSession_spec ttl now store sid).2.1 s hs hexp]
        exact lookup_eraseSession store sid
    unfold updateSession
    rw [hget]
    exact ⟨rfl, hstore2⟩
  · intro s hs hle
    have hget1 : (getSession ttl now store sid).1 = some s :=
      ((getSession_spec ttl now store sid).1 s).mpr ⟨hs, hle⟩
    have hget2 : (getSession ttl now store sid).2 = store :=
      (getSession_spec ttl now store sid).2.2 s hget1
    have hget : getSession ttl now store sid = (some s, store) := by
      rw [Prod.ext_iff]
      exact ⟨hget1, hget2⟩
    refine ⟨{ s with
        last_result := result, updated_at := now,
        metadata := match metadata with
          | none => s.metadata
          | some m => if m = [] then s.metadata
              else metadataUpdate s.metadata m }, ?_, rfl, rfl, rfl, rfl, rfl⟩
    unfold updateSession
    rw [hget]

/-- Witness for C6: updating an absent id is a no-op that creates nothing;
updating a live id rewrites the result and timestamp only. -/
theorem updateSession_spec_witness :
    ((updateSession 3600 100 [] "nope" "new" none).1 = none
      ∧ lookupSession (updateSession 3600 100 [] "nope" "new" none).2 "nope"
          = none)
    ∧ ∃ s', updateSession 3600 100 [("s1", sampleSession)] "s1" "new" none
          = (some s', setSession [("s1", sampleSession)] "s1" s')
        ∧ s'.last_result = "new" ∧ s'.updated_at = 100
        ∧ s'.session_id = "s1" ∧ s'.resume_text = "resume text"
        ∧ s'.created_at = 0 := by
  constructor
  · exact (updateSession_spec 3600 100 [] "nope" "new" none).1
      (Or.inl (by decide))
  · have h := (updateSession_spec 3600 100 [("s1", sampleSession)] "s1" "new"
      none).2 sampleSession (by decide) (by norm_num [sampleSession])
    simpa [sampleSession] using h

/-- C10: `SessionService.create` on an id (present or not) installs a fresh
session under that id: empty last result and metadata, both timestamps at
the current time, and the original resume text; the TTL window restarts
because the looked-up entry's `created_at` is `now`. -/
theorem createSession_spec (ttl now : ℚ) (store : Store) (sid resume : String)
    (httl : 0 ≤ ttl) :
    (createSession ttl now store sid resume).1
      = { session_id := sid, resume_text := resume, last_result := "",
          created_at := now, updated_at := now, metadata := [] }
    ∧ lookupSession (createSession ttl now store sid resume).2 sid
        = some { session_id := sid, resume_text := resume, last_result := "",
                 created_at := now, updated_at := now, metadata := [] } := by
  constructor
  · rfl
  · show lookupSession
      (cleanupExpired ttl now (setSession store sid _)) sid = _
    unfold cleanupExpired setSession
    rw [List.filter_cons]
    have hpred : decide (¬ now - now > ttl) = true := by
      rw [decide_eq_true_eq]
      intro h
      simp only [sub_self] at h
      exact absurd httl (not_le.mpr h)
    rw [if_pos hpred]
    simp [lookupSession]

/-- Witness for C10: creating over an existing id replaces it with the
fresh session. -/
theorem createSession_spec_witness :
    lookupSession
        (createSession 3600 500 [("s1", sampleSession)] "s1" "new resume").2
        "s1"
      = some { session_id := "s1", resume_text := "new resume",
               last_result := "", created_at := 500, updated_at := 500,
               metadata := [] } :=
  (createSession_spec 3600 500 [("s1", sampleSession)] "s1" "new resume"
    (by norm_num)).2

/-- C2 counterexample: at M = 8, C = 6, O = 6 the conservative and
optimistic estimates agree, so the instruction's rule yields Medium with
2/3 agreement, not the Low / 1-of-3 the claim states (the final level 7 is
as claimed). -/
theorem consensus_866_counterexample :
    finalLevel 8 6 6 = 7
    ∧ confidenceLabel 8 6 6 = ConfidenceLabel.medium
    ∧ confidenceValue (confidenceLabel 8 6 6) = 3 / 4
    ∧ agreementCount 8 6 6 = 2
    ∧ ¬ (confidenceLabel 8 6 6 = ConfidenceLabel.low ∧ agreementCount 8 6 6 = 1) := by
  refine ⟨?_, by decide, ?_, by decide, by decide⟩
  · unfold finalLevel clampLevel roundHalfUp weightedLevel
    norm_num
  · rw [show confidenceLabel 8 6 6 = ConfidenceLabel.medium from by decide]
    norm_num [confidenceValue]

/-- C2 (amended): the aggregator returns
`round_half_up(0.5*M + 0.25*C + 0.25*O)` clamped to [1,10] (the clamp is
inert for in-range inputs, so the result is always in [1,10]); a weighted
sum ending in exactly .5 rounds upward; the label is High iff all three
estimates are equal, Medium iff exactly two are equal, Low iff all three
differ; and M = 8, C = 6, O = 6 yields final level 7 with label Medium
(0.75) and agreement 2/3. -/
theorem consensus_spec (M C O : ℤ)
    (hM : 1 ≤ M ∧ M ≤ 10) (hC : 1 ≤ C ∧ C ≤ 10) (hO : 1 ≤ O ∧ O ≤ 10) :
    finalLevel M C O = roundHalfUp (weightedLevel M C O)
    ∧ 1 ≤ finalLevel M C O ∧ finalLevel M C O ≤ 10
    ∧ (∀ n : ℤ, roundHalfUp ((n : ℚ) + 1 / 2) = n + 1)
    ∧ (confidenceLabel M C O = ConfidenceLabel.high ↔ M = C ∧ C = O)
    ∧ (confidenceLabel M C O = ConfidenceLabel.medium ↔
        (M = C ∨ C = O ∨ M = O) ∧ ¬ (M = C ∧ C = O))
    ∧ (confidenceLabel M C O = ConfidenceLabel.low ↔
        M ≠ C ∧ C ≠ O ∧ M ≠ O)
    ∧ finalLevel 8 6 6 = 7
    ∧ confidenceLabel 8 6 6 = ConfidenceLabel.medium
    ∧ agreementCount 8 6 6 = 2 := by
  have hw1 : (1 : ℚ) ≤ weightedLevel M C O := by
    unfold weightedLevel
    have h1 : (1 : ℚ) ≤ (M : ℚ) := by exact_mod_cast hM.1
    have h2 : (1 : ℚ) ≤ (C : ℚ) := by exact_mod_cast hC.1
    have h3 : (1 : ℚ) ≤ (O : ℚ) := by exact_mod_cast hO.1
    nlinarith
  have hw10 : weightedLevel M C O ≤ 10 := by
    unfold weightedLevel
    have h1 : (M : ℚ) ≤ 10 := by exact_mod_cast hM.2
    have h2 : (C : ℚ) ≤ 10 := by exact_mod_cast hC.2
    have h3 : (O : ℚ) ≤ 10 := by exact_mod_cast hO.2
    nlinarith
  have hr1 : 1 ≤ roundHalfUp (weightedLevel M C O) := by
    unfold roundHalfUp
    have : (1 : ℚ) ≤ weightedLevel M C O + 1 / 2 := by linarith
    exact Int.le_floor.mpr (by exact_mod_cast this)
  have hr10 : roundHalfUp (weightedLevel M C O) ≤ 10 := by
    unfold roundHalfUp
    have hlt : weightedLevel M C O + 1 / 2 < (11 : ℚ) := by linarith
    have := Int.floor_le_floor (le_of_lt hlt)
    have hfl : ⌊(11 : ℚ)⌋ = 11 := by norm_num
    have h11 : ⌊weightedLevel M C O + 1 / 2⌋ < 11 := by
      refine Int.floor_lt.mpr ?_
      exact_mod_cast hlt
    omega
  have hclamp : finalLevel M C O = roundHalfUp (weightedLevel M C O) := by
    unfold finalLevel clampLevel
    omega
  refine ⟨hclamp, ?_, ?_, ?_, ?_, ?_, ?_, ?_, by decide, by decide⟩
  · rw [hclamp]; exact hr1
  · rw [hclamp]; exact hr10
  · intro n
    unfold roundHalfUp
    have : (n : ℚ) + 1 / 2 + 1 / 2 = ((n + 1 : ℤ) : ℚ) := by push_cast; ring
    rw [this, Int.floor_intCast]
  · unfold confidenceLabel
    split_ifs with h1 h2
    · exact ⟨fun _ => h1, fun _ => rfl⟩
    · exact ⟨(fun hc => nomatch hc), fun hr => absurd hr h1⟩
    · exact ⟨(fun hc => nomatch hc), fun hr => absurd hr h1⟩
  · unfold confidenceLabel
    split_ifs with h1 h2
    · exact ⟨(fun hc => nomatch hc), fun hr => absurd h1 hr.2⟩
    · exact ⟨fun _ => ⟨h2, h1⟩, fun _ => rfl⟩
    · exact ⟨(fun hc => nomatch hc), fun hr => absurd hr.1 h2⟩
  · unfold confidenceLabel
    split_ifs with h1 h2
    · exact ⟨(fun hc => nomatch hc), fun hr => absurd h1.1 hr.1⟩
    · refine ⟨(fun hc => nomatch hc), fun hr => ?_⟩
      rcases h2 with he | he | he
      · exact absurd he hr.1
      · exact absurd he hr.2.1
      · exact absurd he hr.2.2
    · refine ⟨fun _ => ⟨?_, ?_, ?_⟩, fun _ => rfl⟩ <;> intro he
      · exact h2 (Or.inl he)
      · exact h2 (Or.inr (Or.inl he))
      · exact h2 (Or.inr (Or.inr he))
  · unfold finalLevel clampLevel roundHalfUp weightedLevel
    norm_num

/-- Witness for C2 (amended), instantiated at M = 8, C = 6, O = 6. -/
theorem consensus_spec_witness :
    finalLevel 8 6 6 = roundHalfUp (weightedLevel 8 6 6)
    ∧ 1 ≤ finalLevel 8 6 6 ∧ finalLevel 8 6 6 ≤ 10
    ∧ confidenceLabel 8 6 6 = ConfidenceLabel.medium := by
  have h := consensus_spec 8 6 6 (by norm_num) (by norm_num) (by norm_num)
  exact ⟨h.1, h.2.1, h.2.2.1, h.2.2.2.2.2.2.2.2.1⟩

/-- The fuel argument of `findUrlTokensAux` is irrelevant as long as it is
at least the remaining length, so running it at exactly the length (as
`findUrls` does) is the untruncated scan. -/
theorem findUrlTokensAux_fuel (fuel : ℕ) :
    ∀ cs : List Char, cs.length ≤ fuel →
      findUrlTokensAux fuel cs = findUrlTokensAux cs.length cs := by
  induction fuel using Nat.strong_induction_on with
  | _ fuel ih =>
    intro cs hlen
    cases fuel with
    | zero =>
        have hnil : cs = [] := List.length_eq_zero.mp (Nat.le_zero.mp hlen)
        subst hnil
        rfl
    | succ f =>
        cases cs with
        | nil => rfl
        | cons c rest =>
            have hr : rest.length ≤ f := by
              simpa using hlen
            by_cases hm : urlMatchLen (c :: rest) = 0
            · have e1 : findUrlTokensAux (f + 1) (c :: rest)
                  = findUrlTokensAux f rest := by
                simp only [findUrlTokensAux]
                rw [if_pos hm]
              have e2 : findUrlTokensAux (c :: rest).length (c :: rest)
                  = findUrlTokensAux rest.length rest := by
                simp only [List.length_cons, findUrlTokensAux]
                rw [if_pos hm]
              rw [e1, e2]
              exact ih f (Nat.lt_succ_self f) rest hr
            · have e1 : findUrlTokensAux (f + 1) (c :: rest)
                  = (c :: rest).take (urlMatchLen (c :: rest))
                    :: findUrlTokensAux f
                        ((c :: rest).drop (urlMatchLen (c :: rest))) := by
                simp only [findUrlTokensAux]
                rw [if_neg hm]
              have e2 : findUrlTokensAux (c :: rest).length (c :: rest)
                  = (c :: rest).take (urlMatchLen (c :: rest))
                    :: findUrlTokensAux rest.length
                        ((c :: rest).drop (urlMatchLen (c :: rest))) := by
                simp only [List.length_cons, findUrlTokensAux]
                rw [if_neg hm]
              have hdlen : ((c :: rest).drop (urlMatchLen (c :: rest))).length
                  ≤ rest.length := by
                rw [List.length_drop]
                simp only [List.length_cons]
                have := Nat.pos_of_ne_zero hm
                omega
              rw [e1, e2]
              congr 1
              rw [ih f (Nat.lt_succ_self f) _ (le_trans hdlen hr),
                ih rest.length (Nat.lt_succ_of_le hr) _ hdlen]

/-- C4: a link is classified valid exactly when its probe returns HTTP
status 200; a raised probe error yields an invalid record carrying the
error text; and for three links whose probes return 200, 404 and a
timeout, the aggregate has `all_valid = false`, `invalid_count = 2`, and
the 200 link absent from `invalid_urls`. -/
theorem url_validation_spec :
    (∀ url oc, (validate_url_async url oc).valid = true
      ↔ oc = ProbeOutcome.ok 200)
    ∧ (∀ url m, (validate_url_async url (ProbeOutcome.err m)).error = some m)
    ∧ (validate_urls_async sampleProbes).all_valid = false
    ∧ (validate_urls_async sampleProbes).invalid_count = 2
    ∧ "https://ok.example/job" ∉ (validate_urls_async sampleProbes).invalid_urls := by
  refine ⟨?_, fun url m => rfl, by decide, by decide, by decide⟩
  intro url oc
  cases oc <;> simp [validate_url_async]

/-- C9: on any unit output in which the URL scanner finds no URL-shaped
token, `check_job_urls` reports a validation failure — `all_valid =
false`, `should_exit = false`, feedback "No URLs found." — never success,
whatever the probe would have answered. -/
theorem check_job_urls_no_urls (job_output : String)
    (probe : String → ProbeOutcome) (h : findUrls job_output = []) :
    check_job_urls job_output probe
      = { all_valid := false, valid_urls := none, invalid_urls := none,
          feedback := "No URLs found.", should_exit := false } := by
  simp [check_job_urls, sanitizeUrls, h]

/-- Witness for C9: a concrete linkless text. -/
theorem check_job_urls_no_urls_witness :
    findUrls "Senior data engineer resume with no links at all." = []
    ∧ check_job_urls "Senior data engineer resume with no links at all."
        (fun _ => ProbeOutcome.err "unreachable")
      = { all_valid := false, valid_urls := none, invalid_urls := none,
          feedback := "No URLs found.", should_exit := false } :=
  ⟨by decide, check_job_urls_no_urls _ _ (by decide)⟩

/-- C3 (code bug): the sources define `STAGGER_DELAY = 2.0` ("seconds
between batches") but never use it; `batched_job_scouts` sequences the two
parallel batches back to back, so the minimum delay imposed between the
first batch's completion and the second batch's start is 0 seconds on
every run, not the configured stagger. -/
theorem stagger_delay_not_imposed :
    STAGGER_DELAY = 2
    ∧ subAgentsOf batched_job_scouts = [parallel_batch_1, parallel_batch_2]
    ∧ interBatchDelay batched_job_scouts = 0
    ∧ interBatchDelay batched_job_scouts < STAGGER_DELAY := by
  refine ⟨rfl, rfl, rfl, ?_⟩
  have h : interBatchDelay batched_job_scouts = 0 := rfl
  rw [h, STAGGER_DELAY]
  norm_num

/-- C7: when the pipeline invocation raises, `analyze` raises
`AnalysisError` carrying the failing error text and returns the session
store exactly as it was: the freshly generated session id, absent before
the call, is still absent after it, and no result is returned. -/
theorem analyze_failure_spec (ttl now : ℚ) (store : Store)
    (session_id resume_text e : String) :
    analyze ttl now store session_id resume_text (Except.error e)
      = (Except.error ("Pipeline execution failed: " ++ e), store)
    ∧ (lookupSession store session_id = none →
        lookupSession
          (analyze ttl now store session_id resume_text (Except.error e)).2
          session_id = none) :=
  ⟨rfl, fun h => h⟩

/-- Witness for C7 on a concrete failing run over an empty store. -/
theorem analyze_failure_spec_witness :
    analyze 3600 100 [] "session_ab12cd34" "resume body" (Except.error "boom")
      = (Except.error "Pipeline execution failed: boom", [])
    ∧ lookupSession
        (analyze 3600 100 [] "session_ab12cd34" "resume body"
          (Except.error "boom")).2 "session_ab12cd34" = none := by
  have h := analyze_failure_spec 3600 100 [] "session_ab12cd34" "resume body"
    "boom"
  exact ⟨by rw [h.1]; rfl, h.2 (by decide)⟩

theorem mem_coveredUnion (l : List DateInterval) (y : ℕ × ℕ) :
    y ∈ coveredUnion l ↔ ∃ i ∈ l, y ∈ monthsCovered i := by
  induction l with
  | nil => simp [coveredUnion]
  | cons b t ih =>
      show y ∈ monthsCovered b ∪ coveredUnion t ↔ _
      simp [Finset.mem_union, ih]

theorem card_coveredUnion_le (l : List DateInterval) :
    ((coveredUnion l).card : ℤ)
      ≤ (l.map (fun i => ((monthsCovered i).card : ℤ))).sum := by
  induction l with
  | nil => simp [coveredUnion]
  | cons b t ih =>
      show ((monthsCovered b ∪ coveredUnion t).card : ℤ) ≤ _
      have h := Finset.card_union_le (monthsCovered b) (coveredUnion t)
      have h' : ((monthsCovered b ∪ coveredUnion t).card : ℤ)
          ≤ ((monthsCovered b).card : ℤ) + ((coveredUnion t).card : ℤ) := by
        exact_mod_cast h
      simp only [List.map_cons, List.sum_cons]
      linarith

theorem coveredUnion_append_cons (l₁ l₂ : List DateInterval)
    (a : DateInterval) :
    coveredUnion (l₁ ++ a :: l₂)
      = monthsCovered a ∪ coveredUnion (l₁ ++ l₂) := by
  induction l₁ with
  | nil => rfl
  | cons b t ih =>
      show monthsCovered b ∪ coveredUnion (t ++ a :: l₂) = _
      rw [ih]
      show _ = monthsCovered a ∪ (monthsCovered b ∪ coveredUnion (t ++ l₂))
      rw [Finset.union_left_comm]

theorem sum_map_append_cons (l₁ l₂ : List DateInterval) (a : DateInterval)
    (f : DateInterval → ℤ) :
    ((l₁ ++ a :: l₂).map f).sum = f a + ((l₁ ++ l₂).map f).sum := by
  simp only [List.map_append, List.sum_append, List.map_cons, List.sum_cons]
  ring

/-- For an interval with positive duration and months in 1..12, the
covered set has at most `duration_months + 1` elements (both endpoint
months are included, the duration difference excludes one). -/
theorem card_monthsCovered_le (i : DateInterval)
    (hm : monthsInRange i) (hd : 0 < durationMonths i) :
    ((monthsCovered i).card : ℤ) ≤ durationMonths i + 1 := by
  obtain ⟨hs1, hs2, he1, he2⟩ := hm
  have hmap : ∀ p ∈ monthsCovered i,
      (fun q : ℕ × ℕ => 12 * q.1 + q.2) p
        ∈ Finset.Icc (12 * i.start_year + i.start_month)
            (12 * i.end_year + i.end_month) := by
    intro p hp
    simp only [monthsCovered, Finset.mem_filter, Finset.mem_product,
      Finset.mem_Icc] at hp
    simp only [Finset.mem_Icc]
    omega
  have hinj : Set.InjOn (fun q : ℕ × ℕ => 12 * q.1 + q.2)
      (monthsCovered i : Set (ℕ × ℕ)) := by
    intro p hp q hq heq
    simp only [Finset.coe_filter, Set.mem_setOf_eq, Finset.mem_product,
      Finset.mem_Icc, monthsCovered] at hp hq
    simp only at heq
    have hcomp : p.1 = q.1 ∧ p.2 = q.2 := by omega
    rw [Prod.ext_iff]
    exact hcomp
  have hcard := Finset.card_le_card_of_injOn _ hmap hinj
  have hcardIcc : (Finset.Icc (12 * i.start_year + i.start_month)
      (12 * i.end_year + i.end_month)).card
        = 12 * i.end_year + i.end_month + 1
          - (12 * i.start_year + i.start_month) := Nat.card_Icc _ _
  have hor : 12 * i.start_year + i.start_month
      ≤ 12 * i.end_year + i.end_month := by
    unfold durationMonths at hd
    omega
  have : ((monthsCovered i).card : ℤ)
      ≤ ((12 * i.end_year + i.end_month + 1
          - (12 * i.start_year + i.start_month) : ℕ) : ℤ) := by
    rw [← hcardIcc]
    exact_mod_cast hcard
  unfold durationMonths
  have hcast : ((12 * i.end_year + i.end_month + 1
      - (12 * i.start_year + i.start_month) : ℕ) : ℤ)
        = 12 * (i.end_year : ℤ) + i.end_month + 1
          - (12 * (i.start_year : ℤ) + i.start_month) := by
    have hle : 12 * i.start_year + i.start_month
        ≤ 12 * i.end_year + i.end_month + 1 := le_trans hor (Nat.le_succ _)
    push_cast [Nat.cast_sub hle]
    ring
  rw [hcast] at this
  linarith

/-- C1 counterexample: the intervals parsed from "Jan 2020 - Feb 2020"
and "Feb 2020 - Mar 2020" share February 2020, yet the deduplicated
total (3 covered months) is not strictly less than the sum of the
`duration_months` values (1 + 1 = 2): `duration_months` excludes one
endpoint month of each interval while the covered set includes both. -/
theorem yoe_dedup_counterexample :
    (2020, 2) ∈ monthsCovered roleJanFeb
    ∧ (2020, 2) ∈ monthsCovered roleFebMar
    ∧ keptIntervals [roleJanFeb, roleFebMar] = [roleJanFeb, roleFebMar]
    ∧ totalMonthsDeduped [roleJanFeb, roleFebMar] = 3
    ∧ sumDurationMonths [roleJanFeb, roleFebMar] = 2
    ∧ ¬ ((totalMonthsDeduped [roleJanFeb, roleFebMar] : ℤ)
          < sumDurationMonths [roleJanFeb, roleFebMar]) := by
  decide

/-- C1 (amended): whenever the kept (positive-duration) intervals contain
two entries sharing a covered calendar month, the deduplicated total is
strictly less than the sum of the intervals' inclusive covered-month
counts `duration_months + 1`; and the total counts every calendar month
covered by one or more kept intervals exactly once (it is the cardinality
of the union of their covered sets). -/
theorem yoe_dedup_spec (l l₁ l₂ : List DateInterval) (a : DateInterval)
    (x : ℕ × ℕ)
    (hsplit : keptIntervals l = l₁ ++ a :: l₂)
    (hxa : x ∈ monthsCovered a)
    (hxrest : x ∈ coveredUnion (l₁ ++ l₂))
    (hm : ∀ i ∈ keptIntervals l, monthsInRange i) :
    (totalMonthsDeduped l : ℤ)
        < (((keptIntervals l).map (fun i => durationMonths i + 1)).sum)
    ∧ (∀ y, y ∈ allMonthsWorked l
        ↔ ∃ i ∈ keptIntervals l, y ∈ monthsCovered i) := by
  have hposAll : ∀ i ∈ keptIntervals l, 0 < durationMonths i := by
    intro i hi
    have := List.of_mem_filter hi
    exact of_decide_eq_true this
  constructor
  · have hU : allMonthsWorked l
        = monthsCovered a ∪ coveredUnion (l₁ ++ l₂) := by
      unfold allMonthsWorked
      rw [hsplit]
      exact coveredUnion_append_cons l₁ l₂ a
    have hinter : 1 ≤ (monthsCovered a ∩ coveredUnion (l₁ ++ l₂)).card :=
      Finset.card_pos.mpr ⟨x, Finset.mem_inter.mpr ⟨hxa, hxrest⟩⟩
    have hcards := Finset.card_union_add_card_inter (monthsCovered a)
      (coveredUnion (l₁ ++ l₂))
    have hBle := card_coveredUnion_le (l₁ ++ l₂)
    have haMem : a ∈ keptIntervals l := by
      rw [hsplit]
      exact List.mem_append.mpr (Or.inr (List.mem_cons_self a _))
    have hrestMem : ∀ i ∈ l₁ ++ l₂, i ∈ keptIntervals l := by
      intro i hi
      rw [hsplit]
      rcases List.mem_append.mp hi with h1 | h2
      · exact List.mem_append.mpr (Or.inl h1)
      · exact List.mem_append.mpr (Or.inr (List.mem_cons_of_mem a h2))
    have haCard : ((monthsCovered a).card : ℤ) ≤ durationMonths a + 1 :=
      card_monthsCovered_le a (hm a haMem) (hposAll a haMem)
    have hrestCards : ((l₁ ++ l₂).map
        (fun i => ((monthsCovered i).card : ℤ))).sum
          ≤ ((l₁ ++ l₂).map (fun i => durationMonths i + 1)).sum := by
      refine List.sum_le_sum ?_
      intro i hi
      exact card_monthsCovered_le i (hm i (hrestMem i hi))
        (hposAll i (hrestMem i hi))
    have hsum : ((keptIntervals l).map (fun i => durationMonths i + 1)).sum
        = (durationMonths a + 1)
          + ((l₁ ++ l₂).map (fun i => durationMonths i + 1)).sum := by
      rw [hsplit]
      exact sum_map_append_cons l₁ l₂ a _
    have hcards' : ((allMonthsWorked l).card : ℤ)
        + ((monthsCovered a ∩ coveredUnion (l₁ ++ l₂)).card : ℤ)
          = ((monthsCovered a).card : ℤ)
            + ((coveredUnion (l₁ ++ l₂)).card : ℤ) := by
      rw [hU]
      exact_mod_cast hcards
    have hinter' : (1 : ℤ)
        ≤ ((monthsCovered a ∩ coveredUnion (l₁ ++ l₂)).card : ℤ) := by
      exact_mod_cast hinter
    unfold totalMonthsDeduped
    rw [hsum]
    linarith
  · intro y
    unfold allMonthsWorked
    exact mem_coveredUnion (keptIntervals l) y

/-- Witness for C1 (amended) on the two concrete overlapping intervals:
3 deduplicated months against 2 + 2 inclusive covered months. -/
theorem yoe_dedup_spec_witness :
    (totalMonthsDeduped [roleJanFeb, roleFebMar] : ℤ)
      < (((keptIntervals [roleJanFeb, roleFebMar]).map
          (fun i => durationMonths i + 1)).sum) :=
  (yoe_dedup_spec [roleJanFeb, roleFebMar] [] [roleFebMar] roleJanFeb
    (2020, 2) (by decide) (by decide) (by decide) (by decide)).1

theorem unitCallbacks_count_of_mem (evs : List RunnerEvent) :
    ∀ seen : List String, ∀ a ∈ seen,
      ((unitCallbacks seen evs).map Prod.fst).count a = 0 := by
  induction evs with
  | nil => intro seen a ha; simp [unitCallbacks]
  | cons ev evs ih =>
      intro seen a ha
      cases hA : ev.author with
      | none => simpa [unitCallbacks, hA] using ih seen a ha
      | some b =>
          by_cases hb : b ∈ seen
          · simpa [unitCallbacks, hA, hb] using ih seen a ha
          · cases hT : firstPartText ev.parts with
            | none => simpa [unitCallbacks, hA, hb, hT] using ih seen a ha
            | some t =>
                have hba : ¬ a = b := fun he => hb (he ▸ ha)
                have hrec := ih (b :: seen) a (List.mem_cons_of_mem b ha)
                simp [unitCallbacks, hA, hb, hT, List.count_cons, hba, hrec]

theorem unitCallbacks_count_le_one (evs : List RunnerEvent) :
    ∀ seen : List String, ∀ a : String,
      ((unitCallbacks seen evs).map Prod.fst).count a ≤ 1 := by
  induction evs with
  | nil => intro seen a; simp [unitCallbacks]
  | cons ev evs ih =>
      intro seen a
      cases hA : ev.author with
      | none => simpa [unitCallbacks, hA] using ih seen a
      | some b =>
          by_cases hb : b ∈ seen
          · simpa [unitCallbacks, hA, hb] using ih seen a
          · cases hT : firstPartText ev.parts with
            | none => simpa [unitCallbacks, hA, hb, hT] using ih seen a
            | some t =>
                by_cases hba : a = b
                · subst hba
                  have h0 := unitCallbacks_count_of_mem evs (a :: seen) a
                    (List.mem_cons_self a seen)
                  simp [unitCallbacks, hA, hb, hT, List.count_cons, h0]
                · have hrec := ih (b :: seen) a
                  simpa [unitCallbacks, hA, hb, hT, List.count_cons, hba]
                    using hrec

theorem unitCallbacks_authors (evs : List RunnerEvent) :
    ∀ seen : List String, ∀ b ∈ (unitCallbacks seen evs).map Prod.fst,
      ∃ ev ∈ evs, ev.author = some b := by
  induction evs with
  | nil => intro seen b hb; simp [unitCallbacks] at hb
  | cons ev evs ih =>
      intro seen b hb
      cases hA : ev.author with
      | none =>
          rw [show unitCallbacks seen (ev :: evs) = unitCallbacks seen evs
              from by simp [unitCallbacks, hA]] at hb
          obtain ⟨ev', hev', h⟩ := ih seen b hb
          exact ⟨ev', List.mem_cons_of_mem ev hev', h⟩
      | some a =>
          by_cases ha : a ∈ seen
          · rw [show unitCallbacks seen (ev :: evs) = unitCallbacks seen evs
                from by simp [unitCallbacks, hA, ha]] at hb
            obtain ⟨ev', hev', h⟩ := ih seen b hb
            exact ⟨ev', List.mem_cons_of_mem ev hev', h⟩
          · cases hT : firstPartText ev.parts with
            | none =>
                rw [show unitCallbacks seen (ev :: evs)
                    = unitCallbacks seen evs
                    from by simp [unitCallbacks, hA, ha, hT]] at hb
                obtain ⟨ev', hev', h⟩ := ih seen b hb
                exact ⟨ev', List.mem_cons_of_mem ev hev', h⟩
            | some t =>
                rw [show unitCallbacks seen (ev :: evs)
                    = (a, previewOf t) :: unitCallbacks (a :: seen) evs
                    from by simp [unitCallbacks, hA, ha, hT]] at hb
                simp only [List.map_cons, List.mem_cons] at hb
                rcases hb with hb | hb
                · exact ⟨ev, List.mem_cons_self ev evs, by rw [hA, hb]⟩
                · obtain ⟨ev', hev', h⟩ := ih (a :: seen) b hb
                  exact ⟨ev', List.mem_cons_of_mem ev hev', h⟩

theorem unitCallbacks_length_le (evs : List RunnerEvent)
    (unitNames : List String)
    (hauth : ∀ ev ∈ evs, ∀ a, ev.author = some a → a ∈ unitNames) :
    (unitCallbacks [] evs).length ≤ unitNames.dedup.length := by
  have hnodup : ((unitCallbacks [] evs).map Prod.fst).Nodup :=
    List.nodup_iff_count_le_one.mpr (fun a => unitCallbacks_count_le_one evs [] a)
  have hsub : ∀ b ∈ (unitCallbacks [] evs).map Prod.fst, b ∈ unitNames := by
    intro b hb
    obtain ⟨ev, hev, hA⟩ := unitCallbacks_authors evs [] b hb
    exact hauth ev hev b hA
  have h1 : ((unitCallbacks [] evs).map Prod.fst).toFinset.card
      = ((unitCallbacks [] evs).map Prod.fst).length :=
    List.toFinset_card_of_nodup hnodup
  have h2 : ((unitCallbacks [] evs).map Prod.fst).toFinset
      ⊆ unitNames.toFinset := by
    intro b hb
    rw [List.mem_toFinset] at hb ⊢
    exact hsub b hb
  have h3 := Finset.card_le_card h2
  rw [h1, List.card_toFinset] at h3
  simpa using h3

theorem isTerminal_terminalEvent (session_id : String)
    (outcome : Except String String) :
    isTerminalEvent (terminalEvent session_id outcome) = true := by
  cases outcome <;> rfl

theorem isTerminal_progressEvent (q : String × String) :
    isTerminalEvent (progressEvent q) = false := rfl

/-- C8: in any streamed run — runner events all authored by pipeline
units, any prefix of non-unit callbacks, any outcome — the stream ends
with the single terminal (result or error) record, which no event
follows; every queued progress pair is emitted; each unit name yields at
most one unit-output progress callback (first non-empty chunk only), so
the unit-output progress events number at most the number of distinct
unit names. -/
theorem analyze_stream_spec (session_id banner : String)
    (pre : List (String × String)) (evs : List RunnerEvent)
    (outcome : Except String String) (unitNames : List String)
    (hauth : ∀ ev ∈ evs, ∀ a, ev.author = some a → a ∈ unitNames) :
    (analyze_stream session_id banner (pre ++ unitCallbacks [] evs)
        outcome).getLast? = some (terminalEvent session_id outcome)
    ∧ ((analyze_stream session_id banner (pre ++ unitCallbacks [] evs)
        outcome).filter isTerminalEvent).length = 1
    ∧ (∀ q ∈ pre ++ unitCallbacks [] evs,
        progressEvent q ∈ analyze_stream session_id banner
          (pre ++ unitCallbacks [] evs) outcome)
    ∧ (∀ a, ((unitCallbacks [] evs).map Prod.fst).count a ≤ 1)
    ∧ (unitCallbacks [] evs).length ≤ unitNames.dedup.length := by
  refine ⟨?_, ?_, ?_, fun a => unitCallbacks_count_le_one evs [] a,
    unitCallbacks_length_le evs unitNames hauth⟩
  · show ((startEvent session_id banner
        :: (pre ++ unitCallbacks [] evs).map progressEvent)
          ++ [terminalEvent session_id outcome]).getLast? = _
    rw [List.getLast?_concat]
  · show (List.filter isTerminalEvent
        (startEvent session_id banner
          :: ((pre ++ unitCallbacks [] evs).map progressEvent
            ++ [terminalEvent session_id outcome]))).length = 1
    rw [List.filter_cons, List.filter_append]
    have hstart : isTerminalEvent (startEvent session_id banner) = false := rfl
    have hmap : ((pre ++ unitCallbacks [] evs).map progressEvent).filter
        isTerminalEvent = [] := by
      rw [List.filter_eq_nil_iff]
      intro e he
      obtain ⟨q, _, hq⟩ := List.mem_map.mp he
      rw [← hq]
      simp [isTerminal_progressEvent]
    rw [hstart, hmap]
    simp [isTerminal_terminalEvent]
  · intro q hq
    exact List.mem_cons_of_mem _
      (List.mem_append_left _ (List.mem_map_of_mem progressEvent hq))

/-- Witness for C8 on a concrete trace: duplicate resume-parser output is
suppressed, the terminal record is last, two unit progress events against
eleven units. -/
theorem analyze_stream_spec_witness :
    (analyze_stream "session_w" "Standard mode"
        ([("system", "banner")] ++ unitCallbacks [] sampleRunnerEvents)
        (Except.ok "report")).getLast?
      = some (terminalEvent "session_w" (Except.ok "report"))
    ∧ ((unitCallbacks [] sampleRunnerEvents).map Prod.fst).count
        "resume_parser" ≤ 1
    ∧ (unitCallbacks [] sampleRunnerEvents).length
        ≤ pipelineUnitNames.dedup.length := by
  have h := analyze_stream_spec "session_w" "Standard mode"
    [("system", "banner")] sampleRunnerEvents (Except.ok "report")
    pipelineUnitNames
    (by
      intro ev hev a hA
      simp only [sampleRunnerEvents, List.mem_cons,
        List.not_mem_nil, or_false] at hev
      rcases hev with h1 | h1 | h1 <;> subst h1 <;>
        (injection hA with h2) <;> subst h2 <;> decide)
  exact ⟨h.1, h.2.2.2.1 "resume_parser", h.2.2.2.2⟩

end JobSearchPipeline
